import Mathlib

/-!
# Verification of the CCSDS-Protocol-FyCUS23 bus-packet codec

Shallow embedding of the bus-packet protocol of RubenT17/CCSDS-Protocol-FyCUS23.
The repository ships a Python ctypes binding (`binding/bus_packet.py`) around a
native codec (`bus_packet.dll`) whose C source is not part of the repository;
the binding's constants, struct layout, marshaling and wrapper functions are
embedded from the source, while the two native codec operations are modelled
from the specification (each such definition is marked `Modelled from the
spec:`).

Machine bytes are embedded as `Nat` with explicit `% 256` (resp. `% 65536`)
where the fixed-width types of the binding (`c_uint8`, `c_uint16`) narrow
values.
-/

set_option maxRecDepth 4000

namespace BusPacket

/-! ## Frame layout constants (binding/bus_packet.py, lines 9-19) -/

def BUS_PACKET_BUS_SIZE : Nat := 127

def BUS_PACKET_ECF_SIZE : Nat := 2

def BUS_PACKET_HEADER_SIZE : Nat := 2

def BUS_PACKET_DATA_SIZE : Nat :=
  BUS_PACKET_BUS_SIZE - BUS_PACKET_ECF_SIZE - BUS_PACKET_HEADER_SIZE

def BUS_PACKET_FRAME_SYNC_SIZE : Nat := 4

def BUS_PACKET_TYPE_TM : Nat := 0

def BUS_PACKET_TYPE_TC : Nat := 1

def BUS_PACKET_ECF_NOT_EXIST : Nat := 0

def BUS_PACKET_ECF_EXIST : Nat := 1

/-- The `ctypes.c_uint8` marshaling step: Python integers handed to a
`c_uint8` argument (declared in the `argtypes` lists, lines 37-42) are
silently truncated to 8 bits. -/
def c_uint8 (n : Nat) : Nat := n % 256

/-- The decoded/logical packet representation, embedding the ctypes structure
`bus_packet_t` (lines 22-30).  The fixed `c_uint8 * BUS_PACKET_DATA_SIZE`
array is embedded as the list of its meaningful prefix bytes (the first
`length` of them); `ecf` is the 16-bit error-control value. -/
structure bus_packet_t where
  packet_type : Nat
  apid : Nat
  ecf_flag : Nat
  length : Nat
  data : List Nat
  ecf : Nat
  deriving Repr, DecidableEq

/-- A freshly constructed `bus_packet_t()`: ctypes zero-initialises every
field, so the meaningful data region is empty. -/
def bus_packet_t.fresh : bus_packet_t :=
  { packet_type := 0, apid := 0, ecf_flag := 0, length := 0, data := [], ecf := 0 }

/-- Modelled from the spec: the 16-bit error-control computation of the native
library (`bus_packet.dll`, not in the repository).  The spec leaves the exact
algorithm open ("checksum/CRC family — exact polynomial unspecified") and only
requires a deterministic 16-bit checksum over header+payload that is sensitive
to any single-byte change; we model it as the byte sum reduced to 16 bits. -/
def bus_packet_Checksum (bytes : List Nat) : Nat := bytes.sum % 65536

/-- Modelled from the spec: the native `bus_packet_EncodePacketize`
(`bus_packet.dll`, not in the repository).  Validates `data_length ≤
BUS_PACKET_DATA_SIZE` and `apid ≤ 127` (failure status 1, output buffer
untouched); on success packs the header (byte 0 = packet_type(1 bit) ‖ apid(7
bits), byte 1 = ecf_flag(1 bit) ‖ length(7 bits)), copies `data_length`
payload bytes, appends the 16-bit error-control field little-endian (the
checksum over header+payload when `ecf_flag` is set, the zero sentinel
otherwise), and writes the frame into the start of `buffer_out`, returning
status 0 and the written buffer. -/
def fun_bus_packet_EncodePacketize (packet_type apid ecf_flag : Nat)
    (data : List Nat) (data_length : Nat) (buffer_out : List Nat) :
    Nat × List Nat :=
  if BUS_PACKET_DATA_SIZE < data_length ∨ 127 < apid then
    (1, buffer_out)
  else
    let header : List Nat :=
      [packet_type % 2 * 128 + apid % 128, ecf_flag % 2 * 128 + data_length % 128]
    let body : List Nat := header ++ data.take data_length
    let ecf : Nat := if ecf_flag % 2 = 1 then bus_packet_Checksum body else 0
    let frame : List Nat := body ++ [ecf % 256, ecf / 256]
    (0, frame ++ buffer_out.drop frame.length)

/-- Modelled from the spec: the native `bus_packet_Decode` (`bus_packet.dll`,
not in the repository).  Rejects buffers shorter than the minimum frame
(header + ECF), unpacks the header, validates `length ≤ BUS_PACKET_DATA_SIZE`
and that the buffer holds at least `HEADER_SIZE + length + ECF_SIZE` bytes,
extracts the payload and the little-endian 16-bit error-control field that
trails it, and, when the ecf flag is set, compares the recomputed checksum
over header+payload against it; every failure returns status 1 and leaves the
caller-supplied output packet as it was. -/
def fun_bus_packet_Decode (buffer : List Nat) (packet : bus_packet_t) :
    Nat × bus_packet_t :=
  if buffer.length < BUS_PACKET_HEADER_SIZE + BUS_PACKET_ECF_SIZE then
    (1, packet)
  else
    let b0 : Nat := buffer.getD 0 0
    let b1 : Nat := buffer.getD 1 0
    let length : Nat := b1 % 128
    if BUS_PACKET_DATA_SIZE < length then
      (1, packet)
    else if buffer.length < BUS_PACKET_HEADER_SIZE + length + BUS_PACKET_ECF_SIZE then
      (1, packet)
    else
      let ecf : Nat := buffer.getD (2 + length) 0 + 256 * buffer.getD (2 + length + 1) 0
      if b1 / 128 = 1 ∧ bus_packet_Checksum (buffer.take (2 + length)) ≠ ecf then
        (1, packet)
      else
        (0, { packet_type := b0 / 128, apid := b0 % 128, ecf_flag := b1 / 128,
              length := length, data := (buffer.drop 2).take length, ecf := ecf })

/-- Status and full output buffer of the Python wrapper
`bus_packet_EncodePacketize` (lines 46-53) before the final slice: a fresh
zero `BUS_PACKET_BUS_SIZE` buffer is allocated and every argument is narrowed
by the `c_uint8` marshaling (the `argtypes` declaration, lines 40-42) before
the native call. -/
def bus_packet_EncodePacketize_buffer (packet_type apid ecf_flag : Nat)
    (data : List Nat) (data_length : Nat) : Nat × List Nat :=
  fun_bus_packet_EncodePacketize (c_uint8 packet_type) (c_uint8 apid)
    (c_uint8 ecf_flag) (data.map c_uint8) (c_uint8 data_length)
    (List.replicate BUS_PACKET_BUS_SIZE 0)

/-- The Python wrapper `bus_packet_EncodePacketize` (lines 46-53): calls the
native encoder on the narrowed arguments and returns the status together with
`buffer_out[:data_length+4]` — note the slice uses the caller's original
(un-narrowed) `data_length`, and Python slicing clamps at the buffer length. -/
def bus_packet_EncodePacketize (packet_type apid ecf_flag : Nat)
    (data : List Nat) (data_length : Nat) : Nat × List Nat :=
  let r := bus_packet_EncodePacketize_buffer packet_type apid ecf_flag data data_length
  (r.1, r.2.take (data_length + 4))

/-- The Python wrapper `bus_packet_Decode` (lines 56-59): constructs a fresh
local `bus_packet_t()`, passes the buffer through the `c_uint8` element
marshaling, and returns the native status together with the filled packet. -/
def bus_packet_Decode (buffer : List Nat) : Nat × bus_packet_t :=
  fun_bus_packet_Decode (buffer.map c_uint8) bus_packet_t.fresh

/-- The module-level mutable state of `binding/bus_packet.py`: the single
`packet = bus_packet_t()` instance allocated at module scope (line 32). -/
structure ModuleState where
  packet : bus_packet_t
  deriving Repr, DecidableEq

/-- The module state right after import: line 32 runs `packet = bus_packet_t()`. -/
def initialModuleState : ModuleState := { packet := bus_packet_t.fresh }

/-- The wrapper `bus_packet_Decode` as a transformer of the module-level state: the local
`packet = bus_packet_t()` on line 57 shadows the module-level name, the native
call fills only that fresh local value, and the module state is returned
untouched. -/
def bus_packet_Decode_st (s : ModuleState) (buffer : List Nat) :
    ModuleState × (Nat × bus_packet_t) :=
  (s, fun_bus_packet_Decode (buffer.map c_uint8) bus_packet_t.fresh)

/-- The error-control value a successful encode writes after the payload: the
checksum over header+payload when the ecf flag is set, the zero sentinel
otherwise (abbreviation for stating the encode characterisation lemma). -/
def encodedEcf (pt apid ef dl : Nat) (data : List Nat) : Nat :=
  if ef % 2 = 1 then
    bus_packet_Checksum ((pt % 2 * 128 + apid % 128) :: (ef % 2 * 128 + dl % 128) :: data)
  else 0

/-! ## Helper lemmas -/

/-- Marshaling a list of bytes through `c_uint8` is the identity. -/
lemma map_c_uint8_of_bytes {l : List Nat} (h : ∀ x ∈ l, x < 256) :
    l.map c_uint8 = l := by
  induction l with
  | nil => rfl
  | cons a t ih =>
    have ha : a < 256 := h a (List.mem_cons_self a t)
    have ht : ∀ x ∈ t, x < 256 := fun x hx => h x (List.mem_cons_of_mem a hx)
    simp [c_uint8, Nat.mod_eq_of_lt ha, ih ht]

/-- The sum of a list of bytes is at most `255 *` its length. -/
lemma sum_le_of_bytes {l : List Nat} (h : ∀ x ∈ l, x < 256) :
    l.sum ≤ 255 * l.length := by
  induction l with
  | nil => simp
  | cons a t ih =>
    have ha : a < 256 := h a (List.mem_cons_self a t)
    have ht := ih fun x hx => h x (List.mem_cons_of_mem a hx)
    simp only [List.sum_cons, List.length_cons]
    omega

/-- Reading with `getD` just past an initial segment reads from the tail list. -/
lemma getD_append_add (l1 l2 : List Nat) (n : Nat) :
    (l1 ++ l2).getD (l1.length + n) 0 = l2.getD n 0 := by
  rw [List.getD_append_right l1 l2 0 (l1.length + n) (Nat.le_add_right _ _)]
  congr 1
  omega

/-- An in-bounds `getD` over a byte list is a byte. -/
lemma getD_lt_of_bytes {l : List Nat} (h : ∀ x ∈ l, x < 256) {i : Nat}
    (hi : i < l.length) : l.getD i 0 < 256 := by
  rw [List.getD_eq_getElem l 0 hi]
  exact h _ (List.getElem_mem hi)

/-- Reading at an index other than the `set` index is unchanged. -/
lemma getD_set_ne (l : List Nat) {i j : Nat} (a : Nat) (hij : i ≠ j)
    (hj : j < l.length) : (l.set i a).getD j 0 = l.getD j 0 := by
  have hj' : j < (l.set i a).length := by simpa using hj
  rw [List.getD_eq_getElem _ 0 hj', List.getD_eq_getElem _ 0 hj]
  exact List.getElem_set_ne hij hj'

/-- Replacing one in-bounds element changes a `Nat` list sum by the
difference between the new and the old value. -/
lemma sum_set_add_getD (l : List Nat) (i a : Nat) (hi : i < l.length) :
    (l.set i a).sum + l.getD i 0 = l.sum + a := by
  induction l generalizing i with
  | nil => simp at hi
  | cons x t ih =>
    cases i with
    | zero => simp [List.sum_cons]; omega
    | succ j =>
      have hj : j < t.length := by simpa using hi
      have := ih j hj
      simp only [show (x :: t).set (j + 1) a = x :: t.set j a from rfl,
        List.sum_cons, List.getD_cons_succ]
      omega

/-- Xor with a nonzero value changes a natural number. -/
lemma xor_two_pow_ne (v k : Nat) : v ^^^ 2 ^ k ≠ v := by
  intro h
  have h2 : v ^^^ (v ^^^ 2 ^ k) = v ^^^ v := congrArg (v ^^^ ·) h
  rw [Nat.xor_cancel_left, Nat.xor_self] at h2
  exact absurd h2 (Nat.pos_iff_ne_zero.mp (Nat.two_pow_pos k))

/-- Characterisation of a successful encode: with in-range `apid` and
`data_length` matching the data, the wrapper returns status 0 and exactly the
`HEADER_SIZE + data_length + ECF_SIZE`-byte frame header ∥ payload ∥
little-endian ecf. -/
lemma core_encode_valid (pt apid ef dl : Nat) (data buf : List Nat)
    (ha : apid ≤ 127) (hdl : dl ≤ 123) (hlen : data.length = dl) :
    fun_bus_packet_EncodePacketize pt apid ef data dl buf =
      (0, ((pt % 2 * 128 + apid % 128) :: (ef % 2 * 128 + dl % 128) ::
        (data ++ [encodedEcf pt apid ef dl data % 256,
                  encodedEcf pt apid ef dl data / 256])) ++ buf.drop (dl + 4)) := by
  subst hlen
  simp only [fun_bus_packet_EncodePacketize, encodedEcf, bus_packet_Checksum,
    BUS_PACKET_DATA_SIZE, BUS_PACKET_BUS_SIZE, BUS_PACKET_ECF_SIZE,
    BUS_PACKET_HEADER_SIZE, List.take_length]
  rw [if_neg (by omega)]
  simp only [List.cons_append, List.nil_append, List.append_assoc,
    List.length_append, List.length_cons, List.length_nil, Prod.mk.injEq, true_and]

lemma encode_valid (pt apid ef dl : Nat) (data : List Nat)
    (ha : apid ≤ 127) (hdl : dl ≤ 123) (hlen : data.length = dl)
    (hbytes : ∀ b ∈ data, b < 256) :
    bus_packet_EncodePacketize pt apid ef data dl =
      (0, (pt % 2 * 128 + apid % 128) :: (ef % 2 * 128 + dl % 128) ::
        (data ++ [encodedEcf pt apid ef dl data % 256,
                  encodedEcf pt apid ef dl data / 256])) := by
  have hdl8 : c_uint8 dl = dl := Nat.mod_eq_of_lt (by omega)
  have ha8 : c_uint8 apid = apid := Nat.mod_eq_of_lt (by omega)
  have hpt8 : c_uint8 pt % 2 = pt % 2 := by unfold c_uint8; omega
  have hef8 : c_uint8 ef % 2 = ef % 2 := by unfold c_uint8; omega
  have hdata : data.map c_uint8 = data := map_c_uint8_of_bytes hbytes
  have hecf : encodedEcf (c_uint8 pt) apid (c_uint8 ef) dl data =
      encodedEcf pt apid ef dl data := by
    simp only [encodedEcf, hpt8, hef8]
  simp only [bus_packet_EncodePacketize, bus_packet_EncodePacketize_buffer,
    hdl8, ha8, hdata]
  rw [core_encode_valid _ _ _ _ _ _ ha hdl hlen]
  simp only [hpt8, hef8, hecf, Prod.mk.injEq, true_and]
  rw [List.take_left' (by simp [hlen])]

/-- Evaluation of decode on a buffer of bytes presented as header byte ∥
header byte ∥ rest, long enough for its own length field: the result is the
unpacked packet unless the ecf flag is set and the recomputed checksum
disagrees with the trailing error-control field. -/
lemma decode_eval (x y : Nat) (M : List Nat) (hx : x < 256) (hy : y < 256)
    (hM : ∀ b ∈ M, b < 256) (hdl : y % 128 ≤ 123) (hlen : y % 128 + 2 ≤ M.length) :
    bus_packet_Decode (x :: y :: M) =
      if y / 128 = 1 ∧
          bus_packet_Checksum (x :: y :: M.take (y % 128)) ≠
            M.getD (y % 128) 0 + 256 * M.getD (y % 128 + 1) 0 then
        (1, bus_packet_t.fresh)
      else
        (0, { packet_type := x / 128, apid := x % 128, ecf_flag := y / 128,
              length := y % 128, data := M.take (y % 128),
              ecf := M.getD (y % 128) 0 + 256 * M.getD (y % 128 + 1) 0 }) := by
  have hmap : (x :: y :: M).map c_uint8 = x :: y :: M := by
    apply map_c_uint8_of_bytes
    intro b hb
    rcases List.mem_cons.mp hb with rfl | hb
    · exact hx
    rcases List.mem_cons.mp hb with rfl | hb
    · exact hy
    exact hM b hb
  have hget0 : (x :: y :: M).getD 0 0 = x := rfl
  have hget1 : (x :: y :: M).getD 1 0 = y := rfl
  have hget2 : ∀ n : Nat, (x :: y :: M).getD (2 + n) 0 = M.getD n 0 := by
    intro n
    rw [show 2 + n = n + 1 + 1 by omega, List.getD_cons_succ, List.getD_cons_succ]
  have htake : (x :: y :: M).take (2 + y % 128) = x :: y :: M.take (y % 128) := by
    rw [show 2 + y % 128 = y % 128 + 1 + 1 by omega, List.take_succ_cons,
      List.take_succ_cons]
  have hdrop : (x :: y :: M).drop 2 = M := rfl
  have hget3 : (x :: y :: M).getD (2 + y % 128 + 1) 0 = M.getD (y % 128 + 1) 0 := by
    rw [show 2 + y % 128 + 1 = 2 + (y % 128 + 1) by omega]
    exact hget2 _
  simp only [bus_packet_Decode, hmap, fun_bus_packet_Decode, hget0, hget1,
    BUS_PACKET_DATA_SIZE, BUS_PACKET_BUS_SIZE, BUS_PACKET_ECF_SIZE,
    BUS_PACKET_HEADER_SIZE, List.length_cons]
  rw [if_neg (by omega)]
  rw [if_neg (by omega)]
  rw [if_neg (by omega)]
  rw [hget2 (y % 128), hget3, htake, hdrop]

/-- Decoding a frame produced by a valid encode succeeds and reproduces every
logical field (workhorse for the round-trip claim, stated over the Python
wrapper pair). -/
lemma round_trip_core (pt apid ef dl : Nat) (data : List Nat)
    (hpt : pt ≤ 1) (ha : apid ≤ 127) (hef : ef ≤ 1)
    (hlen : data.length = dl) (hdl : dl ≤ 123)
    (hbytes : ∀ b ∈ data, b < 256) :
    bus_packet_Decode (bus_packet_EncodePacketize pt apid ef data dl).2 =
      (0, { packet_type := pt, apid := apid, ecf_flag := ef, length := dl,
            data := data,
            ecf := encodedEcf pt apid ef dl data : bus_packet_t }) := by
  subst hlen
  rw [encode_valid pt apid ef data.length data ha hdl rfl hbytes]
  have heb : encodedEcf pt apid ef data.length data < 65536 := by
    unfold encodedEcf bus_packet_Checksum
    split
    · exact Nat.mod_lt _ (by norm_num)
    · norm_num
  have hb0 : pt % 2 * 128 + apid % 128 < 256 := by omega
  have hb1 : ef % 2 * 128 + data.length % 128 < 256 := by omega
  have hM : ∀ b ∈ data ++ [encodedEcf pt apid ef data.length data % 256,
      encodedEcf pt apid ef data.length data / 256], b < 256 := by
    intro b hb
    rcases List.mem_append.mp hb with hb | hb
    · exact hbytes b hb
    · rcases List.mem_cons.mp hb with rfl | hb
      · omega
      rcases List.mem_cons.mp hb with rfl | hb
      · omega
      · simp at hb
  have hMlen : (data ++ [encodedEcf pt apid ef data.length data % 256,
      encodedEcf pt apid ef data.length data / 256]).length =
      data.length + 2 := by
    simp
  have hymod : (ef % 2 * 128 + data.length % 128) % 128 = data.length := by
    omega
  have hydiv : (ef % 2 * 128 + data.length % 128) / 128 = ef := by omega
  show bus_packet_Decode (_ :: _ :: _) = _
  rw [decode_eval _ _ _ hb0 hb1 hM (by omega) (by rw [hMlen]; omega)]
  have htake : (data ++ [encodedEcf pt apid ef data.length data % 256,
      encodedEcf pt apid ef data.length data / 256]).take
        ((ef % 2 * 128 + data.length % 128) % 128) = data := by
    rw [hymod]
    exact List.take_left' rfl
  have hg1 : (data ++ [encodedEcf pt apid ef data.length data % 256,
      encodedEcf pt apid ef data.length data / 256]).getD
        ((ef % 2 * 128 + data.length % 128) % 128) 0 =
      encodedEcf pt apid ef data.length data % 256 := by
    rw [hymod]
    have := getD_append_add data [encodedEcf pt apid ef data.length data % 256,
      encodedEcf pt apid ef data.length data / 256] 0
    simpa using this
  have hg2 : (data ++ [encodedEcf pt apid ef data.length data % 256,
      encodedEcf pt apid ef data.length data / 256]).getD
        ((ef % 2 * 128 + data.length % 128) % 128 + 1) 0 =
      encodedEcf pt apid ef data.length data / 256 := by
    rw [hymod, getD_append_add data _ 1]
    rfl
  rw [htake, hg1, hg2]
  have hecfsum : encodedEcf pt apid ef data.length data % 256 +
      256 * (encodedEcf pt apid ef data.length data / 256) =
      encodedEcf pt apid ef data.length data := by omega
  rw [hecfsum]
  rw [if_neg ?hcond]
  case hcond =>
    rintro ⟨h1, h2⟩
    apply h2
    rw [hydiv] at h1
    subst h1
    simp [encodedEcf]
  · simp only [Prod.mk.injEq, bus_packet_t.mk.injEq, true_and, and_true]
    refine ⟨by omega, by omega, hydiv, hymod⟩

/-- Xor of a byte with a single-bit mask below bit 8 is a byte. -/
lemma xor_byte_lt {v k : Nat} (hv : v < 256) (hk : k < 8) : v ^^^ 2 ^ k < 256 := by
  have h1 : v < 2 ^ 8 := by simpa using hv
  have h2 : (2 : Nat) ^ k < 2 ^ 8 := Nat.pow_lt_pow_right (by norm_num) hk
  simpa using @Nat.xor_lt_two_pow v (2 ^ k) 8 h1 h2

/-- Over at most 125 header+payload bytes the modelled 16-bit checksum never
wraps, so it is the plain byte sum. -/
lemma checksum_eq_sum (x y : Nat) (P : List Nat) (hx : x < 256) (hy : y < 256)
    (hP : ∀ b ∈ P, b < 256) (hPl : P.length ≤ 123) :
    bus_packet_Checksum (x :: y :: P) = x + y + P.sum := by
  have hs := sum_le_of_bytes hP
  unfold bus_packet_Checksum
  simp only [List.sum_cons]
  rw [Nat.mod_eq_of_lt (by omega)]
  omega

/-- Decode fails on a well-shaped frame whose trailing error-control field
does not match the recomputed checksum (the ecf flag being set). -/
lemma decode_tampered_fails (x y : Nat) (P : List Nat) (e : Nat)
    (hx : x < 256) (hy : y < 256) (hP : ∀ b ∈ P, b < 256)
    (hyl : y % 128 = P.length) (hPl : P.length ≤ 123) (hyd : y / 128 = 1)
    (helt : e < 65536)
    (hne : bus_packet_Checksum (x :: y :: P) ≠ e) :
    (bus_packet_Decode (x :: y :: (P ++ [e % 256, e / 256]))).1 ≠ 0 := by
  have hM : ∀ b ∈ P ++ [e % 256, e / 256], b < 256 := by
    intro b hb
    rcases List.mem_append.mp hb with hb | hb
    · exact hP b hb
    · rcases List.mem_cons.mp hb with rfl | hb
      · omega
      rcases List.mem_cons.mp hb with rfl | hb
      · omega
      · simp at hb
  have hg1 : (P ++ [e % 256, e / 256]).getD P.length 0 = e % 256 := by
    simpa using getD_append_add P [e % 256, e / 256] 0
  have hg2 : (P ++ [e % 256, e / 256]).getD (P.length + 1) 0 = e / 256 := by
    rw [getD_append_add P _ 1]
    rfl
  rw [decode_eval x y (P ++ [e % 256, e / 256]) hx hy hM (by omega)
    (by simp only [List.length_append, List.length_cons, List.length_nil]; omega)]
  rw [hyl, List.take_left' rfl, hg1, hg2]
  rw [if_pos ⟨hyd, by rw [show e % 256 + 256 * (e / 256) = e from by omega]; exact hne⟩]
  simp

/-! ## Claim theorems -/

/-- C1: for every valid input (`packet_type ∈ {TM, TC}`, `apid ≤ 127`,
`ecf_flag ∈ {ABSENT, PRESENT}`, data of length `data_length ≤ DATA_SIZE`),
encoding succeeds with status 0 and decoding the produced frame returns
status 0 and reproduces `packet_type`, `apid`, `ecf_flag`,
`length = data_length` and the data bytes exactly. -/
theorem encode_decode_round_trip (pt apid ef dl : Nat) (data : List Nat)
    (hpt : pt = BUS_PACKET_TYPE_TM ∨ pt = BUS_PACKET_TYPE_TC)
    (ha : apid ≤ 127)
    (hef : ef = BUS_PACKET_ECF_NOT_EXIST ∨ ef = BUS_PACKET_ECF_EXIST)
    (hlen : data.length = dl) (hdl : dl ≤ BUS_PACKET_DATA_SIZE)
    (hbytes : ∀ b ∈ data, b < 256) :
    (bus_packet_EncodePacketize pt apid ef data dl).1 = 0 ∧
    (bus_packet_Decode (bus_packet_EncodePacketize pt apid ef data dl).2).1 = 0 ∧
    (bus_packet_Decode (bus_packet_EncodePacketize pt apid ef data dl).2).2.packet_type = pt ∧
    (bus_packet_Decode (bus_packet_EncodePacketize pt apid ef data dl).2).2.apid = apid ∧
    (bus_packet_Decode (bus_packet_EncodePacketize pt apid ef data dl).2).2.ecf_flag = ef ∧
    (bus_packet_Decode (bus_packet_EncodePacketize pt apid ef data dl).2).2.length = dl ∧
    (bus_packet_Decode (bus_packet_EncodePacketize pt apid ef data dl).2).2.data = data := by
  have hpt1 : pt ≤ 1 := by rcases hpt with rfl | rfl <;> decide
  have hef1 : ef ≤ 1 := by rcases hef with rfl | rfl <;> decide
  have hdl' : dl ≤ 123 := by
    simpa [BUS_PACKET_DATA_SIZE, BUS_PACKET_BUS_SIZE, BUS_PACKET_ECF_SIZE,
      BUS_PACKET_HEADER_SIZE] using hdl
  have hdec := round_trip_core pt apid ef dl data hpt1 ha hef1 hlen hdl' hbytes
  have henc := encode_valid pt apid ef dl data ha hdl' hlen hbytes
  rw [hdec, henc]
  exact ⟨rfl, rfl, rfl, rfl, rfl, rfl, rfl⟩

/-- Witness for C1 at the concrete demo input. -/
theorem encode_decode_round_trip_witness :
    (((1 : Nat) = BUS_PACKET_TYPE_TM ∨ (1 : Nat) = BUS_PACKET_TYPE_TC) ∧
     (40 : Nat) ≤ 127 ∧
     ((1 : Nat) = BUS_PACKET_ECF_NOT_EXIST ∨ (1 : Nat) = BUS_PACKET_ECF_EXIST) ∧
     ([100, 1, 12, 234, 34, 5] : List Nat).length = 6 ∧
     (6 : Nat) ≤ BUS_PACKET_DATA_SIZE ∧
     (∀ b ∈ ([100, 1, 12, 234, 34, 5] : List Nat), b < 256)) ∧
    ((bus_packet_EncodePacketize 1 40 1 [100, 1, 12, 234, 34, 5] 6).1 = 0 ∧
     (bus_packet_Decode (bus_packet_EncodePacketize 1 40 1
        [100, 1, 12, 234, 34, 5] 6).2).1 = 0 ∧
     (bus_packet_Decode (bus_packet_EncodePacketize 1 40 1
        [100, 1, 12, 234, 34, 5] 6).2).2.packet_type = 1 ∧
     (bus_packet_Decode (bus_packet_EncodePacketize 1 40 1
        [100, 1, 12, 234, 34, 5] 6).2).2.apid = 40 ∧
     (bus_packet_Decode (bus_packet_EncodePacketize 1 40 1
        [100, 1, 12, 234, 34, 5] 6).2).2.ecf_flag = 1 ∧
     (bus_packet_Decode (bus_packet_EncodePacketize 1 40 1
        [100, 1, 12, 234, 34, 5] 6).2).2.length = 6 ∧
     (bus_packet_Decode (bus_packet_EncodePacketize 1 40 1
        [100, 1, 12, 234, 34, 5] 6).2).2.data = [100, 1, 12, 234, 34, 5]) :=
  ⟨⟨by decide, by decide, by decide, by decide, by decide, by decide⟩,
   encode_decode_round_trip 1 40 1 6 [100, 1, 12, 234, 34, 5]
     (by decide) (by decide) (by decide) (by decide) (by decide) (by decide)⟩

/-- C7: `encode_packetize(TC, apid=40, ecf_flag=PRESENT, data=[100,1,12,234,34,5],
data_length=6)` returns status 0 and a frame of exactly 10 bytes, and decoding
that frame returns status 0 with `packet_type=TC`, `apid=40`,
`ecf_flag=PRESENT`, `length=6`, and `data=[100,1,12,234,34,5]`. -/
theorem concrete_scenario :
    bus_packet_EncodePacketize BUS_PACKET_TYPE_TC 40 BUS_PACKET_ECF_EXIST
        [100, 1, 12, 234, 34, 5] 6 =
      (0, [168, 134, 100, 1, 12, 234, 34, 5, 176, 2]) ∧
    (bus_packet_EncodePacketize BUS_PACKET_TYPE_TC 40 BUS_PACKET_ECF_EXIST
        [100, 1, 12, 234, 34, 5] 6).2.length = 10 ∧
    bus_packet_Decode [168, 134, 100, 1, 12, 234, 34, 5, 176, 2] =
      (0, { packet_type := BUS_PACKET_TYPE_TC, apid := 40,
            ecf_flag := BUS_PACKET_ECF_EXIST, length := 6,
            data := [100, 1, 12, 234, 34, 5], ecf := 688 }) := by
  decide

/-- C8: `encode_packetize(TM, apid=0, ecf_flag=ABSENT, data=[], data_length=0)`
returns status 0 and a frame of exactly 4 bytes, and decoding that frame
succeeds with `length=0` and an empty payload. -/
theorem zero_length_payload :
    bus_packet_EncodePacketize BUS_PACKET_TYPE_TM 0 BUS_PACKET_ECF_NOT_EXIST [] 0 =
      (0, [0, 0, 0, 0]) ∧
    (bus_packet_EncodePacketize BUS_PACKET_TYPE_TM 0 BUS_PACKET_ECF_NOT_EXIST
        [] 0).2.length = 4 ∧
    bus_packet_Decode [0, 0, 0, 0] =
      (0, { packet_type := BUS_PACKET_TYPE_TM, apid := 0,
            ecf_flag := BUS_PACKET_ECF_NOT_EXIST, length := 0,
            data := [], ecf := 0 }) := by
  decide

/-- C9: decode returns a freshly constructed packet value and leaves all state
outside its own result unchanged: the module-level `packet` instance is not
mutated by a decode call, the result is a pure function of the decoded buffer,
and a later decode on another buffer is unaffected by the earlier one. -/
theorem decode_fresh_value (s : ModuleState) (buf1 buf2 : List Nat) :
    (bus_packet_Decode_st s buf1).1 = s ∧
    (bus_packet_Decode_st s buf1).2 = bus_packet_Decode buf1 ∧
    (bus_packet_Decode_st (bus_packet_Decode_st s buf1).1 buf2).2 =
      bus_packet_Decode buf2 :=
  ⟨rfl, rfl, rfl⟩

/-- C10: at the `encode_packetize` interface, `data_length` and every element
of `data` are narrowed to 8-bit values before the codec sees them: the
native-call stage is invariant under reducing them mod 256, and in particular
a call with `data_length = 256` returns the same status as one with
`data_length = 0`. -/
theorem encode_marshaling (pt apid ef dl : Nat) (data : List Nat) :
    bus_packet_EncodePacketize_buffer pt apid ef data dl =
      bus_packet_EncodePacketize_buffer pt apid ef
        (data.map (fun b => b % 256)) (dl % 256) ∧
    (bus_packet_EncodePacketize pt apid ef data dl).1 =
      (bus_packet_EncodePacketize pt apid ef
        (data.map (fun b => b % 256)) (dl % 256)).1 ∧
    (bus_packet_EncodePacketize pt apid ef data 256).1 =
      (bus_packet_EncodePacketize pt apid ef data 0).1 := by
  have hfun : c_uint8 ∘ (fun b : Nat => b % 256) = c_uint8 := by
    funext b
    show b % 256 % 256 = b % 256
    omega
  have hdl : c_uint8 (dl % 256) = c_uint8 dl := by
    show dl % 256 % 256 = dl % 256
    omega
  have h1 : bus_packet_EncodePacketize_buffer pt apid ef
      (data.map (fun b => b % 256)) (dl % 256) =
      bus_packet_EncodePacketize_buffer pt apid ef data dl := by
    simp only [bus_packet_EncodePacketize_buffer, List.map_map, hfun, hdl]
  refine ⟨h1.symm, ?_, ?_⟩
  · simp only [bus_packet_EncodePacketize, h1]
  · simp only [bus_packet_EncodePacketize, bus_packet_EncodePacketize_buffer,
      show c_uint8 256 = c_uint8 0 from rfl]

/-- C3 (counterexample): a call with `data_length = 124` returns a buffer of
127 bytes — the full `BUS_SIZE`-sized scratch buffer — not `124 + 4 = 128`
bytes, so the frame-size claim fails as universally stated. -/
theorem frame_size_counterexample :
    (bus_packet_EncodePacketize 0 0 0 (List.replicate 124 0) 124).2.length ≠
      124 + 4 ∧
    (bus_packet_EncodePacketize 0 0 0 (List.replicate 124 0) 124).2.length =
      BUS_PACKET_BUS_SIZE := by
  decide

/-- C3 (amended): `encode_packetize(..., data_length=N)` returns a byte
sequence of exactly `min (N+4) BUS_SIZE` bytes; in particular, for every
valid `N ≤ DATA_SIZE` it is exactly `N + 4` bytes, which coincides with the
full `BUS_SIZE`-sized buffer exactly when `N = DATA_SIZE`. -/
theorem frame_size_amended (pt apid ef dl : Nat) (data : List Nat) :
    (bus_packet_EncodePacketize pt apid ef data dl).2.length =
      min (dl + 4) BUS_PACKET_BUS_SIZE := by
  have hbuf : (bus_packet_EncodePacketize_buffer pt apid ef data dl).2.length =
      BUS_PACKET_BUS_SIZE := by
    simp only [bus_packet_EncodePacketize_buffer, fun_bus_packet_EncodePacketize,
      BUS_PACKET_DATA_SIZE, BUS_PACKET_BUS_SIZE, BUS_PACKET_ECF_SIZE,
      BUS_PACKET_HEADER_SIZE]
    split
    · simp
    · next hg =>
      have hdl : c_uint8 dl ≤ 123 := by omega
      simp only [List.length_append, List.length_cons, List.length_nil,
        List.length_drop, List.length_replicate, List.length_take,
        List.length_map]
      omega
  simp only [bus_packet_EncodePacketize]
  rw [List.length_take, hbuf]

/-- C4 (counterexample): a call with `apid = 300` — out of the range 0..127 —
returns status 0, because the ctypes marshaling truncates `apid` to
`300 % 256 = 44` before the codec validates it; so the rejection claim fails
as universally stated. -/
theorem bounds_rejection_counterexample :
    (bus_packet_EncodePacketize 0 300 0 [] 0).1 = 0 := by
  decide

/-- C4 (amended): for byte-valued arguments (`apid < 256`, `data_length <
256`), every call with `data_length > DATA_SIZE` or `apid > 127` returns a
non-zero status; in particular `data_length = DATA_SIZE + 1 = 124` is
rejected (arguments ≥ 256 are first truncated mod 256 by the marshaling). -/
theorem bounds_rejection_amended (pt apid ef dl : Nat) (data : List Nat)
    (ha : apid < 256) (hd : dl < 256)
    (h : BUS_PACKET_DATA_SIZE < dl ∨ 127 < apid) :
    (bus_packet_EncodePacketize pt apid ef data dl).1 ≠ 0 := by
  have ha8 : c_uint8 apid = apid := Nat.mod_eq_of_lt ha
  have hd8 : c_uint8 dl = dl := Nat.mod_eq_of_lt hd
  simp only [bus_packet_EncodePacketize, bus_packet_EncodePacketize_buffer,
    fun_bus_packet_EncodePacketize, ha8, hd8]
  rw [if_pos h]
  simp

/-- Witness for C4 (amended) at `data_length = DATA_SIZE + 1 = 124`. -/
theorem bounds_rejection_amended_witness :
    (0 < 256 ∧ 124 < 256 ∧ (BUS_PACKET_DATA_SIZE < 124 ∨ 127 < 0)) ∧
    (bus_packet_EncodePacketize 0 0 0 (List.replicate 124 7) 124).1 ≠ 0 :=
  ⟨by decide,
   bounds_rejection_amended 0 0 0 124 (List.replicate 124 7)
     (by decide) (by decide) (by decide)⟩

/-- C5: for every input buffer, if the length field decoded from the header
exceeds `DATA_SIZE`, or the buffer holds fewer than `HEADER_SIZE + length +
ECF_SIZE` bytes, decode returns a non-zero status. -/
theorem decode_rejects_malformed (buffer : List Nat)
    (h : BUS_PACKET_DATA_SIZE < (buffer.map c_uint8).getD 1 0 % 128 ∨
      buffer.length < BUS_PACKET_HEADER_SIZE +
        (buffer.map c_uint8).getD 1 0 % 128 + BUS_PACKET_ECF_SIZE) :
    (bus_packet_Decode buffer).1 ≠ 0 := by
  simp only [BUS_PACKET_DATA_SIZE, BUS_PACKET_BUS_SIZE, BUS_PACKET_ECF_SIZE,
    BUS_PACKET_HEADER_SIZE] at h
  simp only [bus_packet_Decode, fun_bus_packet_Decode, List.length_map,
    BUS_PACKET_DATA_SIZE, BUS_PACKET_BUS_SIZE, BUS_PACKET_ECF_SIZE,
    BUS_PACKET_HEADER_SIZE]
  split
  · simp
  · next h1 =>
    split
    · simp
    · next h2 =>
      split
      · simp
      · next h3 =>
        split
        · simp
        · exfalso
          omega

/-- Witness for C5 at a buffer whose header length field is 124. -/
theorem decode_rejects_malformed_witness :
    (BUS_PACKET_DATA_SIZE < (([0, 124, 0, 0] : List Nat).map c_uint8).getD 1 0 % 128 ∨
      ([0, 124, 0, 0] : List Nat).length < BUS_PACKET_HEADER_SIZE +
        (([0, 124, 0, 0] : List Nat).map c_uint8).getD 1 0 % 128 + BUS_PACKET_ECF_SIZE) ∧
    (bus_packet_Decode [0, 124, 0, 0]).1 ≠ 0 :=
  ⟨by decide, decode_rejects_malformed [0, 124, 0, 0] (by decide)⟩

/-- C2: for every successful encode, byte 0 of the header packs `packet_type`
in its top bit and `apid` in the remaining 7 bits, byte 1 packs `ecf_flag` in
its top bit and `length` in the remaining 7 bits; the `div`/`mod` equalities
are exactly decode's unpacking of the same assignment, and success forces
`apid` and `length` to fit in 7 bits. -/
theorem header_packing (pt apid ef dl : Nat) (data buf : List Nat)
    (h : (fun_bus_packet_EncodePacketize pt apid ef data dl buf).1 = 0) :
    apid < 128 ∧ dl < 128 ∧
    (fun_bus_packet_EncodePacketize pt apid ef data dl buf).2.getD 0 0 =
      pt % 2 * 128 + apid ∧
    (fun_bus_packet_EncodePacketize pt apid ef data dl buf).2.getD 1 0 =
      ef % 2 * 128 + dl ∧
    (fun_bus_packet_EncodePacketize pt apid ef data dl buf).2.getD 0 0 / 128 =
      pt % 2 ∧
    (fun_bus_packet_EncodePacketize pt apid ef data dl buf).2.getD 0 0 % 128 =
      apid ∧
    (fun_bus_packet_EncodePacketize pt apid ef data dl buf).2.getD 1 0 / 128 =
      ef % 2 ∧
    (fun_bus_packet_EncodePacketize pt apid ef data dl buf).2.getD 1 0 % 128 =
      dl := by
  by_cases hg : BUS_PACKET_DATA_SIZE < dl ∨ 127 < apid
  · exfalso
    simp only [fun_bus_packet_EncodePacketize, if_pos hg] at h
    exact absurd h one_ne_zero
  · have hb : apid ≤ 127 ∧ dl ≤ 123 := by
      simp only [BUS_PACKET_DATA_SIZE, BUS_PACKET_BUS_SIZE, BUS_PACKET_ECF_SIZE,
        BUS_PACKET_HEADER_SIZE] at hg
      omega
    obtain ⟨rest, hfr⟩ :
        ∃ rest, (fun_bus_packet_EncodePacketize pt apid ef data dl buf).2 =
          (pt % 2 * 128 + apid % 128) :: (ef % 2 * 128 + dl % 128) :: rest := by
      simp only [fun_bus_packet_EncodePacketize, if_neg hg,
        List.cons_append, List.nil_append, List.append_assoc]
      exact ⟨_, rfl⟩
    have hgd1 : ∀ (a b : Nat) (l : List Nat), (a :: b :: l).getD 1 0 = b :=
      fun _ _ _ => rfl
    rw [hfr]
    simp only [List.getD_cons_zero, hgd1]
    refine ⟨by omega, by omega, by omega, by omega, by omega, by omega,
      by omega, by omega⟩

/-- Witness for C2 at the concrete scenario input. -/
theorem header_packing_witness :
    (fun_bus_packet_EncodePacketize 1 40 1 [100, 1, 12, 234, 34, 5] 6
        (List.replicate 127 0)).1 = 0 ∧
    (40 < 128 ∧ 6 < 128 ∧
     (fun_bus_packet_EncodePacketize 1 40 1 [100, 1, 12, 234, 34, 5] 6
        (List.replicate 127 0)).2.getD 0 0 = 1 % 2 * 128 + 40 ∧
     (fun_bus_packet_EncodePacketize 1 40 1 [100, 1, 12, 234, 34, 5] 6
        (List.replicate 127 0)).2.getD 1 0 = 1 % 2 * 128 + 6 ∧
     (fun_bus_packet_EncodePacketize 1 40 1 [100, 1, 12, 234, 34, 5] 6
        (List.replicate 127 0)).2.getD 0 0 / 128 = 1 % 2 ∧
     (fun_bus_packet_EncodePacketize 1 40 1 [100, 1, 12, 234, 34, 5] 6
        (List.replicate 127 0)).2.getD 0 0 % 128 = 40 ∧
     (fun_bus_packet_EncodePacketize 1 40 1 [100, 1, 12, 234, 34, 5] 6
        (List.replicate 127 0)).2.getD 1 0 / 128 = 1 % 2 ∧
     (fun_bus_packet_EncodePacketize 1 40 1 [100, 1, 12, 234, 34, 5] 6
        (List.replicate 127 0)).2.getD 1 0 % 128 = 6) :=
  ⟨by decide,
   header_packing 1 40 1 6 [100, 1, 12, 234, 34, 5] (List.replicate 127 0)
     (by decide)⟩

/-- C6 (counterexample): take the successfully encoded PRESENT-flag frame of
the demo scenario and flip one single header bit — bit 7 of header byte 1,
the ecf_flag bit.  Decode then sees `ecf_flag = ABSENT`, skips the checksum
comparison, and returns status 0, so the flip is not detected and the claim
fails as universally stated. -/
theorem integrity_counterexample :
    (bus_packet_EncodePacketize BUS_PACKET_TYPE_TC 40 BUS_PACKET_ECF_EXIST
        [100, 1, 12, 234, 34, 5] 6).1 = 0 ∧
    (bus_packet_Decode
      ((bus_packet_EncodePacketize BUS_PACKET_TYPE_TC 40 BUS_PACKET_ECF_EXIST
          [100, 1, 12, 234, 34, 5] 6).2.set 1
        ((bus_packet_EncodePacketize BUS_PACKET_TYPE_TC 40 BUS_PACKET_ECF_EXIST
            [100, 1, 12, 234, 34, 5] 6).2.getD 1 0 ^^^ 2 ^ 7))).1 = 0 := by
  decide

/-- C6 (amended): for every successfully encoded frame with `ecf_flag =
PRESENT`, flipping any single bit of header byte 0 or of any payload byte
before decoding causes decode to return a non-zero status; flips inside
header byte 1 are excluded since they alter the `ecf_flag`/`length` fields
that steer validation (clearing the ecf_flag bit disables the checksum
comparison altogether). -/
theorem integrity_amended (pt apid dl i k : Nat) (data : List Nat)
    (ha : apid ≤ 127) (hlen : data.length = dl)
    (hdl : dl ≤ BUS_PACKET_DATA_SIZE) (hbytes : ∀ b ∈ data, b < 256)
    (hk : k < 8) (hi : i = 0 ∨ (2 ≤ i ∧ i < 2 + dl)) :
    (bus_packet_Decode
      ((bus_packet_EncodePacketize pt apid BUS_PACKET_ECF_EXIST data dl).2.set i
        ((bus_packet_EncodePacketize pt apid BUS_PACKET_ECF_EXIST data dl).2.getD
          i 0 ^^^ 2 ^ k))).1 ≠ 0 := by
  subst hlen
  have hdl' : data.length ≤ 123 := by
    simpa [BUS_PACKET_DATA_SIZE, BUS_PACKET_BUS_SIZE, BUS_PACKET_ECF_SIZE,
      BUS_PACKET_HEADER_SIZE] using hdl
  simp only [BUS_PACKET_ECF_EXIST]
  rw [encode_valid pt apid 1 data.length data ha hdl' rfl hbytes]
  set e := encodedEcf pt apid 1 data.length data with he
  have heq : e = bus_packet_Checksum ((pt % 2 * 128 + apid % 128) ::
      (1 % 2 * 128 + data.length % 128) :: data) := by
    rw [he]
    simp only [encodedEcf]
    rw [if_pos (by norm_num)]
  have heb : e < 65536 := by
    rw [heq]
    exact Nat.mod_lt _ (by norm_num)
  have hx : pt % 2 * 128 + apid % 128 < 256 := by omega
  have hy : 1 % 2 * 128 + data.length % 128 < 256 := by omega
  rcases hi with rfl | ⟨hi2, hilt⟩
  · show (bus_packet_Decode (((pt % 2 * 128 + apid % 128) ^^^ 2 ^ k) ::
        (1 % 2 * 128 + data.length % 128) ::
        (data ++ [e % 256, e / 256]))).1 ≠ 0
    apply decode_tampered_fails _ _ _ _ (xor_byte_lt hx hk) hy hbytes
      (by omega) hdl' (by omega) heb
    rw [checksum_eq_sum _ _ _ (xor_byte_lt hx hk) hy hbytes hdl', heq,
      checksum_eq_sum _ _ _ hx hy hbytes hdl']
    have hxne := xor_two_pow_ne (pt % 2 * 128 + apid % 128) k
    omega
  · obtain ⟨j, rfl⟩ : ∃ j, i = j + 2 := ⟨i - 2, by omega⟩
    have hj : j < data.length := by omega
    show (bus_packet_Decode ((pt % 2 * 128 + apid % 128) ::
        (1 % 2 * 128 + data.length % 128) ::
        ((data ++ [e % 256, e / 256]).set j
          ((data ++ [e % 256, e / 256]).getD j 0 ^^^ 2 ^ k)))).1 ≠ 0
    rw [List.getD_append data [e % 256, e / 256] 0 j hj]
    rw [show (data ++ [e % 256, e / 256]).set j (data.getD j 0 ^^^ 2 ^ k) =
        data.set j (data.getD j 0 ^^^ 2 ^ k) ++ [e % 256, e / 256] from
      List.set_append_left _ _ hj]
    have hvb : data.getD j 0 < 256 := getD_lt_of_bytes hbytes hj
    have hP : ∀ b ∈ data.set j (data.getD j 0 ^^^ 2 ^ k), b < 256 := by
      intro b hb
      rcases List.mem_or_eq_of_mem_set hb with hb | rfl
      · exact hbytes b hb
      · exact xor_byte_lt hvb hk
    have hPlen : (data.set j (data.getD j 0 ^^^ 2 ^ k)).length = data.length :=
      List.length_set data j _
    apply decode_tampered_fails _ _ _ _ hx hy hP (by omega) (by omega)
      (by omega) heb
    rw [checksum_eq_sum _ _ _ hx hy hP (by omega), heq,
      checksum_eq_sum _ _ _ hx hy hbytes hdl']
    have hsum := sum_set_add_getD data j (data.getD j 0 ^^^ 2 ^ k) hj
    have hvne := xor_two_pow_ne (data.getD j 0) k
    omega

/-- Witness for C6 (amended): flipping bit 0 of the first payload byte of the
demo frame makes decode fail. -/
theorem integrity_amended_witness :
    ((40 : Nat) ≤ 127 ∧ ([100, 1, 12, 234, 34, 5] : List Nat).length = 6 ∧
     (6 : Nat) ≤ BUS_PACKET_DATA_SIZE ∧
     (∀ b ∈ ([100, 1, 12, 234, 34, 5] : List Nat), b < 256) ∧
     (0 : Nat) < 8 ∧ ((2 : Nat) = 0 ∨ (2 ≤ 2 ∧ 2 < 2 + 6))) ∧
    (bus_packet_Decode
      ((bus_packet_EncodePacketize 1 40 BUS_PACKET_ECF_EXIST
          [100, 1, 12, 234, 34, 5] 6).2.set 2
        ((bus_packet_EncodePacketize 1 40 BUS_PACKET_ECF_EXIST
            [100, 1, 12, 234, 34, 5] 6).2.getD 2 0 ^^^ 2 ^ 0))).1 ≠ 0 :=
  ⟨⟨by decide, by decide, by decide, by decide, by decide, by decide⟩,
   integrity_amended 1 40 6 2 0 [100, 1, 12, 234, 34, 5]
     (by decide) (by decide) (by decide) (by decide) (by decide) (by decide)⟩

end BusPacket
